import Mathlib

/-!
Verification of the output-filename resolution policy and the batch driver of
the parlerTTS scripts (`args_voice.py`, `generate_samples.py`).

The filesystem is modelled as the finite list of paths that currently exist;
`os.path.exists` becomes membership in that list.  The entropy source
`uuid.uuid4().hex[:6]` is modelled as a stream `suffixes : Nat → String` of
drawn suffixes.  The two unbounded `while` loops of
`apply_filename_strategy` are given an explicit fuel parameter and return
`Option String`: `none` means the loop has not exited within `fuel`
iterations, so genuine divergence of the Python loop corresponds to the
function returning `none` for every fuel.
-/

namespace ParlerTTS

/-- A filesystem state: the finite collection of paths that exist at the
instant the policy engine runs. -/
abbrev FileSystem := List String

/-- Embedding of `os.path.exists(p)` against filesystem state `fs`. -/
def pathExists (fs : FileSystem) (p : String) : Bool := decide (p ∈ fs)

/-- Index of the last occurrence of `c` in `cs`, if any (Python `str.rfind`,
restricted to the successful case). -/
def lastIdxOf (cs : List Char) (c : Char) : Option Nat :=
  match cs with
  | [] => none
  | a :: rest =>
    match lastIdxOf rest c with
    | some i => some (i + 1)
    | none => if a = c then some 0 else none

/-- Embedding of `os.path.splitext` (POSIX flavour): split at the last dot of
the final path component, unless every character between the last separator
and that dot is itself a dot (so dotfiles such as `.bashrc` are not split). -/
def splitext (p : String) : String × String :=
  match lastIdxOf p.data '.' with
  | none => (p, "")
  | some d =>
    let fi : Nat :=
      match lastIdxOf p.data '/' with
      | none => 0
      | some s => s + 1
    if fi ≤ d ∧ ((p.data.drop fi).take (d - fi)).any (fun c => c != '.') then
      (⟨p.data.take d⟩, ⟨p.data.drop d⟩)
    else (p, "")

/-- The literal default output filename of `args_voice.py`. -/
def default_name : String := "parler_tts_out.wav"

/-- The f-string `base ++ "_" ++ s ++ ext` used by both the increment and the
random branch to build a candidate filename from a suffix `s`. -/
def suffixed (base ext s : String) : String := base ++ "_" ++ s ++ ext

/-- The candidate filename tried by the increment loop at counter value `n`
(Python `str(n)` is decimal, i.e. `Nat.repr`). -/
def candName (base ext : String) (n : Nat) : String := suffixed base ext (Nat.repr n)

/-- The `while os.path.exists(new_filename)` loop of the `increment` strategy,
with explicit fuel.  State `(counter, cur)` mirrors the Python loop variables;
`none` means the loop has not exited within `fuel` iterations. -/
def incLoopF (fs : FileSystem) (base ext : String) : Nat → Nat → String → Option String
  | 0, _, _ => none
  | fuel + 1, counter, cur =>
    if pathExists fs cur then incLoopF fs base ext fuel (counter + 1) (candName base ext counter)
    else some cur

/-- The `while os.path.exists(random_filename)` loop of the `random` strategy,
with explicit fuel; `i` indexes the next draw from the entropy stream. -/
def randLoopF (fs : FileSystem) (base ext : String) (suffixes : Nat → String) :
    Nat → Nat → Option String
  | 0, _ => none
  | fuel + 1, i =>
    if pathExists fs (suffixed base ext (suffixes i)) then
      randLoopF fs base ext suffixes fuel (i + 1)
    else some (suffixed base ext (suffixes i))

/-- Embedding of `apply_filename_strategy(filename, strategy)` from
`args_voice.py`, with the filesystem oracle, the entropy stream and the loop
fuel made explicit.  `none` models an execution that is still inside one of
the while loops after `fuel` iterations. -/
def apply_filename_strategy (fs : FileSystem) (suffixes : Nat → String)
    (filename strategy : String) (fuel : Nat) : Option String :=
  let is_default_name := filename == default_name
  if strategy == "default" then
    some filename
  else if strategy == "increment" && (is_default_name || pathExists fs filename) then
    let p := splitext filename
    incLoopF fs p.1 p.2 fuel 1 filename
  else if strategy == "random" && (is_default_name || pathExists fs filename) then
    let p := splitext filename
    randLoopF fs p.1 p.2 suffixes fuel 0
  else
    some filename

/-- A lower-case hexadecimal digit: the alphabet of `uuid.uuid4().hex`. -/
def isLowerHex (c : Char) : Bool := c.isDigit || ('a' ≤ c && c ≤ 'f')

/-- The modelling assumption on the entropy stream: every draw of
`uuid.uuid4().hex[:6]` is a string of six lower-case hex characters. -/
def HexStream (suffixes : Nat → String) : Prop :=
  ∀ i, (suffixes i).length = 6 ∧ ∀ c ∈ (suffixes i).data, isLowerHex c = true

/-! ### The batch driver (`generate_samples.py`) -/

/-- The fixed list of male speaker names. -/
def male_speakers : List String :=
  ["Jon", "Gary", "Mike", "Will", "Patrick", "Eric", "Rick"]

/-- The fixed list of female speaker names. -/
def female_speakers : List String :=
  ["Lea", "Jenna", "Laura", "Lauren", "Eileen", "Alisa", "Karen", "Barbara", "Carol",
   "Emily", "Rose", "Anna", "Tina"]

/-- The per-speaker style description template of the male loop. -/
def maleDesc (speaker : String) : String :=
  speaker ++ " is a friendly, down-to-earth narrator in his mid-thirties " ++
  "with a relaxed, conversational American accent. He speaks at a steady, " ++
  "medium pace with a warm, approachable tone and just a hint of excitement. " ++
  "His voice feels close-up and personal, as though he\x27s speaking directly " ++
  "to a friend. He enunciates clearly, but there is an informal and slightly " ++
  "playful quality to his words, making him sound relatable and genuine."

/-- The per-speaker style description template of the female loop. -/
def femaleDesc (speaker : String) : String :=
  speaker ++ " is a friendly, down-to-earth narrator in her mid-thirties " ++
  "with a relaxed, conversational American accent. She speaks at a steady, " ++
  "medium pace with a warm, approachable tone and just a hint of excitement. " ++
  "Her voice feels close-up and personal, as though she\x27s speaking directly " ++
  "to a friend. She enunciates clearly, but there is an informal and slightly " ++
  "playful quality to her words, making her sound relatable and genuine."

/-- The per-speaker spoken prompt template (shared by both loops). -/
def speakerPrompt (speaker : String) : String :=
  "Hello there! My name is " ++ speaker ++ ", and I am excited to meet you all. " ++
  "The quick brown fox jumps over the lazy dog at sunrise, setting the stage " ++
  "for a marvelous day. Would you like to join me for coffee at ten A M tomorrow?”"

/-- The command line built for a male speaker. -/
def maleCmd (speaker : String) : List String :=
  ["python", ".\\args_voice.py",
   "-m", "parler-tts/parler-tts-mini-v1",
   "-d", maleDesc speaker,
   "-p", speakerPrompt speaker,
   "-o", ".\\" ++ speaker ++ ".wav",
   "-f", "default",
   "-v"]

/-- The command line built for a female speaker. -/
def femaleCmd (speaker : String) : List String :=
  ["python", ".\\args_voice.py",
   "-m", "parler-tts/parler-tts-mini-v1",
   "-d", femaleDesc speaker,
   "-p", speakerPrompt speaker,
   "-o", ".\\" ++ speaker ++ ".wav",
   "-f", "default",
   "-v"]

/-- All invocations of the batch script, male loop first, then female loop,
each list in its source order. -/
def batchCmds : List (List String) :=
  male_speakers.map maleCmd ++ female_speakers.map femaleCmd

/-- Embedding of the batch driver's sequential `subprocess.run(cmd, check=True)`
calls: commands run in order; `succeeds c = false` models a nonzero exit
status, whose `CalledProcessError` aborts the remaining loop iterations.
The result is the list of invocations actually performed, in order (the
failing invocation itself, having been started, is the last one). -/
def runBatch (succeeds : List String → Bool) : List (List String) → List (List String)
  | [] => []
  | c :: rest => if succeeds c then c :: runBatch succeeds rest else [c]

/-! ### Decimal representation: `Nat.repr` is injective

Python's `str(counter)` is the decimal representation of the counter, i.e.
`Nat.repr`.  Injectivity is what makes the increment candidates pairwise
distinct, hence the increment loop terminating on every finite filesystem. -/

/-- The accumulator of `Nat.toDigitsCore` is simply appended to the output. -/
theorem toDigitsCore_append (fuel : Nat) : ∀ (n : Nat) (ds : List Char),
    Nat.toDigitsCore 10 fuel n ds = Nat.toDigitsCore 10 fuel n [] ++ ds := by
  induction fuel with
  | zero => intro n ds; simp [Nat.toDigitsCore]
  | succ f ih =>
    intro n ds
    simp only [Nat.toDigitsCore]
    by_cases h : n / 10 = 0
    · simp [h]
    · rw [if_neg h, if_neg h, ih (n / 10) (Nat.digitChar (n % 10) :: ds),
        ih (n / 10) [Nat.digitChar (n % 10)], List.append_assoc, List.singleton_append]

/-- Decode a list of decimal digit characters back into a number. -/
def decDigits (ds : List Char) : Nat := ds.foldl (fun a c => 10 * a + (c.toNat - 48)) 0

theorem decDigits_append_singleton (ds : List Char) (c : Char) :
    decDigits (ds ++ [c]) = 10 * decDigits ds + (c.toNat - 48) := by
  simp [decDigits, List.foldl_append]

theorem digitChar_toNat {m : Nat} (h : m < 10) : (Nat.digitChar m).toNat = 48 + m := by
  revert h
  exact (by decide : ∀ m, m < 10 → (Nat.digitChar m).toNat = 48 + m) m

/-- The decoder inverts `Nat.toDigitsCore` given sufficient fuel. -/
theorem decDigits_toDigitsCore (fuel : Nat) : ∀ n, n < fuel →
    decDigits (Nat.toDigitsCore 10 fuel n []) = n := by
  induction fuel with
  | zero => intro n hn; exact absurd hn (Nat.not_lt_zero n)
  | succ f ih =>
    intro n hn
    simp only [Nat.toDigitsCore]
    by_cases h : n / 10 = 0
    · rw [if_pos h]
      have hlt : n % 10 < 10 := Nat.mod_lt _ (by omega)
      have hsmall : n % 10 = n := by
        have := Nat.div_add_mod n 10
        omega
      simp only [decDigits, List.foldl_cons, List.foldl_nil, digitChar_toNat hlt]
      omega
    · rw [if_neg h, toDigitsCore_append, decDigits_append_singleton]
      have hge : 10 ≤ n := by
        rcases Nat.lt_or_ge n 10 with hlt | hge
        · exact absurd (Nat.div_eq_of_lt hlt) h
        · exact hge
      have hdivlt : n / 10 < f := by
        have h1 : n / 10 < n := Nat.div_lt_self (by omega) (by omega)
        omega
      rw [ih (n / 10) hdivlt]
      have hmod : n % 10 < 10 := Nat.mod_lt _ (by omega)
      rw [digitChar_toNat hmod]
      have := Nat.div_add_mod n 10
      omega

theorem repr_injective : Function.Injective Nat.repr := by
  intro m n h
  have hd : Nat.toDigits 10 m = Nat.toDigits 10 n := congrArg String.data h
  have hm := decDigits_toDigitsCore (m + 1) m (Nat.lt_succ_self m)
  have hn := decDigits_toDigitsCore (n + 1) n (Nat.lt_succ_self n)
  unfold Nat.toDigits at hd
  rw [← hm, ← hn, hd]

/-! ### Distinctness and termination of the increment candidates -/

theorem candName_inj (base ext : String) {m n : Nat}
    (h : candName base ext m = candName base ext n) : m = n := by
  have hd := congrArg String.data h
  simp only [candName, suffixed, String.data_append] at hd
  have h1 := List.append_cancel_right hd
  have h2 := List.append_cancel_left h1
  exact repr_injective (String.ext h2)

theorem pathExists_iff {fs : FileSystem} {p : String} :
    pathExists fs p = true ↔ p ∈ fs := by simp [pathExists]

theorem pathExists_false_iff {fs : FileSystem} {p : String} :
    pathExists fs p = false ↔ p ∉ fs := by simp [pathExists]

/-- On a finite filesystem, some increment candidate is always free: the
candidate names are pairwise distinct, so they cannot all lie in `fs`. -/
theorem increment_terminates (fs : FileSystem) (base ext : String) :
    ∃ k, pathExists fs (candName base ext (k + 1)) = false := by
  by_contra hc
  push_neg at hc
  have hmem : ∀ k, candName base ext (k + 1) ∈ fs := by
    intro k
    have hk := hc k
    exact pathExists_iff.mp (by revert hk; cases pathExists fs (candName base ext (k + 1)) <;> simp)
  have hinj : Function.Injective (fun k : Nat => candName base ext (k + 1)) := by
    intro a b hab
    have := candName_inj base ext hab
    omega
  have hfin : (Set.range fun k : Nat => candName base ext (k + 1)).Finite :=
    fs.finite_toSet.subset (by rintro x ⟨k, rfl⟩; exact hmem k)
  exact Set.infinite_range_of_injective hinj hfin

/-! ### Loop lemmas -/

/-- Whatever the increment loop returns satisfies its exit condition: the
returned path does not exist. -/
theorem incLoopF_some_free (fs : FileSystem) (base ext : String) :
    ∀ (fuel counter : Nat) (cur r : String),
      incLoopF fs base ext fuel counter cur = some r → pathExists fs r = false := by
  intro fuel
  induction fuel with
  | zero => intro counter cur r h; simp [incLoopF] at h
  | succ f ih =>
    intro counter cur r h
    simp only [incLoopF] at h
    cases hb : pathExists fs cur with
    | true => rw [hb] at h; simp at h; exact ih _ _ _ h
    | false => rw [hb] at h; simp at h; rw [← h]; exact hb

/-- Invariant of the increment loop after its first iteration: the result is a
candidate `candName base ext N` with `N ≥ k + 1`, and every candidate strictly
between `k + 1` and `N` exists. -/
theorem incLoopF_min (fs : FileSystem) (base ext : String) :
    ∀ (fuel k : Nat) (r : String),
      incLoopF fs base ext fuel (k + 2) (candName base ext (k + 1)) = some r →
      ∃ N, k + 1 ≤ N ∧ r = candName base ext N ∧
        ∀ m, k + 1 ≤ m → m < N → pathExists fs (candName base ext m) = true := by
  intro fuel
  induction fuel with
  | zero => intro k r h; simp [incLoopF] at h
  | succ f ih =>
    intro k r h
    simp only [incLoopF] at h
    cases hb : pathExists fs (candName base ext (k + 1)) with
    | false =>
      rw [hb] at h; simp at h
      exact ⟨k + 1, Nat.le_refl _, h.symm, fun m h1 h2 => absurd h1 (by omega)⟩
    | true =>
      rw [hb] at h; simp at h
      obtain ⟨N, hN1, hN2, hN3⟩ := ih (k + 1) r h
      refine ⟨N, by omega, hN2, fun m h1 h2 => ?_⟩
      rcases Nat.eq_or_lt_of_le h1 with he | hlt
      · rw [← he]; exact hb
      · exact hN3 m (by omega) h2

/-- Given a free candidate `j` steps ahead of the counter, the increment loop
exits within `j + 2` iterations. -/
theorem incLoopF_reaches (fs : FileSystem) (base ext : String) :
    ∀ (j counter : Nat) (cur : String),
      pathExists fs (candName base ext (counter + j)) = false →
      ∃ r, incLoopF fs base ext (j + 2) counter cur = some r := by
  intro j
  induction j with
  | zero =>
    intro counter cur hfree
    simp only [incLoopF]
    cases hb : pathExists fs cur with
    | false => exact ⟨cur, by simp⟩
    | true =>
      refine ⟨candName base ext counter, ?_⟩
      simp only [if_true, incLoopF]
      rw [if_neg (by simpa using hfree)]
  | succ jj ih =>
    intro counter cur hfree
    simp only [incLoopF]
    cases hb : pathExists fs cur with
    | false => exact ⟨cur, by simp⟩
    | true =>
      simp only [if_true]
      have hfree' : pathExists fs (candName base ext (counter + 1 + jj)) = false := by
        have he : counter + 1 + jj = counter + (jj + 1) := by omega
        rw [he]; exact hfree
      exact ih (counter + 1) (candName base ext counter) hfree'

/-- Whatever the random loop returns does not exist, and is one of the drawn
candidates. -/
theorem randLoopF_some_spec (fs : FileSystem) (base ext : String) (suffixes : Nat → String) :
    ∀ (fuel i : Nat) (r : String),
      randLoopF fs base ext suffixes fuel i = some r →
      pathExists fs r = false ∧ ∃ j, r = suffixed base ext (suffixes j) := by
  intro fuel
  induction fuel with
  | zero => intro i r h; simp [randLoopF] at h
  | succ f ih =>
    intro i r h
    simp only [randLoopF] at h
    cases hb : pathExists fs (suffixed base ext (suffixes i)) with
    | true => rw [hb] at h; simp at h; exact ih _ _ h
    | false => rw [hb] at h; simp at h; exact ⟨by rw [← h]; exact hb, i, h.symm⟩

/-- If the draw `i` steps after `start` yields a free candidate, the random
loop exits within `i + 1` iterations. -/
theorem randLoopF_reaches (fs : FileSystem) (base ext : String) (suffixes : Nat → String) :
    ∀ (i start : Nat),
      pathExists fs (suffixed base ext (suffixes (start + i))) = false →
      ∃ r, randLoopF fs base ext suffixes (i + 1) start = some r := by
  intro i
  induction i with
  | zero =>
    intro start hfree
    refine ⟨suffixed base ext (suffixes start), ?_⟩
    simp only [randLoopF]
    rw [if_neg (by simpa using hfree)]
  | succ ii ih =>
    intro start hfree
    simp only [randLoopF]
    cases hb : pathExists fs (suffixed base ext (suffixes start)) with
    | false => exact ⟨suffixed base ext (suffixes start), by simp⟩
    | true =>
      simp only [if_true]
      have hfree' : pathExists fs (suffixed base ext (suffixes (start + 1 + ii))) = false := by
        have he : start + 1 + ii = start + (ii + 1) := by omega
        rw [he]; exact hfree
      exact ih (start + 1) hfree'

/-! ### Branch characterizations of the strategy engine -/

theorem apply_default_eq (fs : FileSystem) (suffixes : Nat → String)
    (filename : String) (fuel : Nat) :
    apply_filename_strategy fs suffixes filename "default" fuel = some filename := by
  simp only [apply_filename_strategy]
  rw [if_pos (by decide)]

theorem apply_increment_eq (fs : FileSystem) (suffixes : Nat → String)
    (filename : String) (fuel : Nat) :
    apply_filename_strategy fs suffixes filename "increment" fuel =
      if (filename == default_name || pathExists fs filename) = true then
        incLoopF fs (splitext filename).1 (splitext filename).2 fuel 1 filename
      else some filename := by
  simp only [apply_filename_strategy]
  rw [if_neg (by decide)]
  have h2 : ("increment" == "increment") = true := by decide
  have h3 : ("increment" == "random") = false := by decide
  rw [h2, h3]
  simp

theorem apply_random_eq (fs : FileSystem) (suffixes : Nat → String)
    (filename : String) (fuel : Nat) :
    apply_filename_strategy fs suffixes filename "random" fuel =
      if (filename == default_name || pathExists fs filename) = true then
        randLoopF fs (splitext filename).1 (splitext filename).2 suffixes fuel 0
      else some filename := by
  simp only [apply_filename_strategy]
  rw [if_neg (by decide)]
  have h2 : ("random" == "increment") = false := by decide
  have h3 : ("random" == "random") = true := by decide
  rw [h2, h3]
  simp

theorem apply_other_eq (fs : FileSystem) (suffixes : Nat → String)
    (filename strategy : String) (fuel : Nat)
    (h1 : (strategy == "default") = false)
    (h2 : (strategy == "increment") = false)
    (h3 : (strategy == "random") = false) :
    apply_filename_strategy fs suffixes filename strategy fuel = some filename := by
  simp only [apply_filename_strategy]
  rw [h1, h2, h3]
  simp

/-- The fail-fast run of a command list is the longest successful prefix
together with the first failing command, if any. -/
theorem runBatch_take (succeeds : List String → Bool) :
    ∀ l : List (List String),
      runBatch succeeds l = l.take ((l.takeWhile succeeds).length + 1) := by
  intro l
  induction l with
  | nil => simp [runBatch]
  | cons c rest ih =>
    simp only [runBatch, List.takeWhile_cons]
    cases hb : succeeds c with
    | true => simp [hb, ih]
    | false => simp [hb]

/-- When the applicability gate is false, the requested path is neither the
default name nor an existing path. -/
theorem gate_false_not_exists {fs : FileSystem} {filename : String}
    (hg : ¬(filename == default_name || pathExists fs filename) = true) :
    pathExists fs filename = false := by
  cases hx : pathExists fs filename with
  | false => rfl
  | true => exact absurd (by simp [hx]) hg

/-- No increment candidate built from the split of the default name equals the
default name itself (the 15th character differs). -/
theorem candName_default_ne (N : Nat) :
    candName "parler_tts_out" ".wav" N ≠ "parler_tts_out.wav" := by
  intro h
  have hd := congrArg String.data h
  simp only [candName, suffixed, String.data_append] at hd
  have h15 := congrArg (List.take 15) hd
  rw [List.append_assoc] at h15
  rw [List.take_left'
    (by decide : ((['p', 'a', 'r', 'l', 'e', 'r', '_', 't', 't', 's', '_', 'o', 'u', 't'] :
      List Char) ++ ['_']).length = 15)] at h15
  exact absurd h15 (by decide)

/-! ### The claims -/

/-- C1: for strategy `increment` or `random`, whenever `apply_filename_strategy`
returns a path, that path does not refer to an existing filesystem entry at the
instant of computation. -/
theorem C1_increment_random_result_fresh (fs : FileSystem) (suffixes : Nat → String)
    (filename strategy : String) (fuel : Nat) (r : String)
    (hs : strategy = "increment" ∨ strategy = "random")
    (h : apply_filename_strategy fs suffixes filename strategy fuel = some r) :
    pathExists fs r = false := by
  rcases hs with rfl | rfl
  · rw [apply_increment_eq] at h
    by_cases hg : (filename == default_name || pathExists fs filename) = true
    · rw [if_pos hg] at h
      exact incLoopF_some_free fs _ _ fuel 1 filename r h
    · rw [if_neg hg] at h
      obtain rfl := Option.some.inj h
      exact gate_false_not_exists hg
  · rw [apply_random_eq] at h
    by_cases hg : (filename == default_name || pathExists fs filename) = true
    · rw [if_pos hg] at h
      exact (randLoopF_some_spec fs _ _ suffixes fuel 0 r h).1
    · rw [if_neg hg] at h
      obtain rfl := Option.some.inj h
      exact gate_false_not_exists hg

/-- Witness for C1: on a filesystem where only `a.wav` exists, the increment
strategy resolves `a.wav` to `a_1.wav`, which does not exist. -/
theorem C1_witness : pathExists ["a.wav"] "a_1.wav" = false :=
  C1_increment_random_result_fresh ["a.wav"] (fun _ => "a") "a.wav" "increment" 2 "a_1.wav"
    (Or.inl rfl) (by decide)

/-- C3: strategy `default` returns the requested path unchanged on every
filesystem state — no existence check, no collision avoidance. -/
theorem C3_default_is_noop (fs : FileSystem) (suffixes : Nat → String)
    (filename : String) (fuel : Nat) :
    apply_filename_strategy fs suffixes filename "default" fuel = some filename :=
  apply_default_eq fs suffixes filename fuel

/-- C4: a non-default, non-existing requested path is returned unchanged under
both the `increment` and the `random` strategy (the gate bypasses the
collision logic entirely). -/
theorem C4_custom_fresh_path_bypasses (fs : FileSystem) (suffixes : Nat → String)
    (filename strategy : String) (fuel : Nat)
    (hnd : (filename == default_name) = false)
    (hne : pathExists fs filename = false)
    (hs : strategy = "increment" ∨ strategy = "random") :
    apply_filename_strategy fs suffixes filename strategy fuel = some filename := by
  have hg : ¬(filename == default_name || pathExists fs filename) = true := by
    simp [hnd, hne]
  rcases hs with rfl | rfl
  · rw [apply_increment_eq, if_neg hg]
  · rw [apply_random_eq, if_neg hg]

/-- Witness for C4: requested path `custom.wav`, empty filesystem, strategy
`random` — resolved path is `custom.wav` unchanged. -/
theorem C4_witness :
    apply_filename_strategy [] (fun _ => "aaaaaa") "custom.wav" "random" 5 =
      some "custom.wav" :=
  C4_custom_fresh_path_bypasses [] (fun _ => "aaaaaa") "custom.wav" "random" 5
    (by decide) (by decide) (Or.inr rfl)

/-- C8: for strategies `default` and `increment` the engine is deterministic:
its result does not depend on the entropy stream, so two calls against the
same filesystem state agree. -/
theorem C8_default_increment_deterministic (fs : FileSystem) (s1 s2 : Nat → String)
    (filename strategy : String) (fuel : Nat)
    (hs : strategy = "default" ∨ strategy = "increment") :
    apply_filename_strategy fs s1 filename strategy fuel =
      apply_filename_strategy fs s2 filename strategy fuel := by
  rcases hs with rfl | rfl
  · rw [apply_default_eq, apply_default_eq]
  · rw [apply_increment_eq, apply_increment_eq]

/-- Witness for C8 at a concrete input: two different entropy streams, same
result under `increment`. -/
theorem C8_witness :
    apply_filename_strategy ["f.wav"] (fun _ => "aa") "f.wav" "increment" 2 =
      apply_filename_strategy ["f.wav"] (fun _ => "bb") "f.wav" "increment" 2 :=
  C8_default_increment_deterministic ["f.wav"] (fun _ => "aa") (fun _ => "bb")
    "f.wav" "increment" 2 (Or.inr rfl)

/-- C2 counterexample: on an empty filesystem the increment strategy applied
to the default name returns the default name itself, which is not of the form
`base_N.ext` — so the claimed shape fails when the requested path merely
equals the default name without existing. -/
theorem C2_counterexample :
    apply_filename_strategy [] (fun _ => "aaaaaa") "parler_tts_out.wav" "increment" 1 =
      some "parler_tts_out.wav" ∧
    ¬ ∃ N, "parler_tts_out.wav" = candName "parler_tts_out" ".wav" N := by
  refine ⟨by decide, ?_⟩
  rintro ⟨N, hN⟩
  exact candName_default_ne N hN.symm

/-- C2 (amended): for every requested path that exists on the filesystem,
whenever the increment strategy returns a path, it does not exist prior to
the call, has the form `base_N.ext`, and `N` is the smallest positive integer
whose candidate does not already exist. -/
theorem C2_amended_increment_minimal (fs : FileSystem) (suffixes : Nat → String)
    (filename : String) (fuel : Nat) (r : String)
    (hex : pathExists fs filename = true)
    (h : apply_filename_strategy fs suffixes filename "increment" fuel = some r) :
    pathExists fs r = false ∧
    ∃ N, 0 < N ∧ r = candName (splitext filename).1 (splitext filename).2 N ∧
      ∀ m, 0 < m → m < N →
        pathExists fs (candName (splitext filename).1 (splitext filename).2 m) = true := by
  rw [apply_increment_eq, if_pos (by simp [hex])] at h
  have hfree := incLoopF_some_free fs _ _ fuel 1 filename r h
  cases fuel with
  | zero => exact absurd h (by simp [incLoopF])
  | succ f =>
    simp only [incLoopF] at h
    rw [if_pos hex] at h
    obtain ⟨N, hN1, hN2, hN3⟩ := incLoopF_min fs _ _ f 0 r h
    exact ⟨hfree, N, by omega, hN2, fun m hm1 hm2 => hN3 m (by omega) hm2⟩

/-- Witness for the amended C2: `b.wav` exists, increment resolves to
`b_1.wav`, the smallest free candidate. -/
theorem C2_witness :
    pathExists ["b.wav"] "b_1.wav" = false ∧
    ∃ N, 0 < N ∧ "b_1.wav" = candName (splitext "b.wav").1 (splitext "b.wav").2 N ∧
      ∀ m, 0 < m → m < N →
        pathExists ["b.wav"] (candName (splitext "b.wav").1 (splitext "b.wav").2 m) = true :=
  C2_amended_increment_minimal ["b.wav"] (fun _ => "aaaaaa") "b.wav" 2 "b_1.wav"
    (by decide) (by decide)

/-- The constant stream drawing `abc123` is a well-formed entropy stream. -/
theorem hexStream_abc123 : HexStream (fun _ => "abc123") :=
  fun _ => ⟨(by decide : ("abc123" : String).length = 6),
    (by decide : ∀ c ∈ ("abc123" : String).data, isLowerHex c = true)⟩

/-- C5: for strategy `random` with the default name or an existing path,
whenever the engine returns, the result does not exist prior to the call and
is `base_<suffix>.ext` where the suffix is a drawn six-character lower-case
hex string and `(base, ext)` is the split of the requested path. -/
theorem C5_random_result_hex_suffixed (fs : FileSystem) (suffixes : Nat → String)
    (filename : String) (fuel : Nat) (r : String)
    (hhex : HexStream suffixes)
    (hgate : (filename == default_name || pathExists fs filename) = true)
    (h : apply_filename_strategy fs suffixes filename "random" fuel = some r) :
    pathExists fs r = false ∧
    ∃ s, s.length = 6 ∧ (∀ c ∈ s.data, isLowerHex c = true) ∧
      r = (splitext filename).1 ++ "_" ++ s ++ (splitext filename).2 := by
  rw [apply_random_eq, if_pos hgate] at h
  obtain ⟨hfree, j, hj⟩ := randLoopF_some_spec fs _ _ suffixes fuel 0 r h
  obtain ⟨hlen, hchars⟩ := hhex j
  exact ⟨hfree, suffixes j, hlen, hchars, hj⟩

/-- Witness for C5: with only the default name present and an entropy stream
drawing `abc123`, the random strategy resolves to
`parler_tts_out_abc123.wav`. -/
theorem C5_witness :
    pathExists ["parler_tts_out.wav"] "parler_tts_out_abc123.wav" = false ∧
    ∃ s, s.length = 6 ∧ (∀ c ∈ s.data, isLowerHex c = true) ∧
      "parler_tts_out_abc123.wav" =
        (splitext "parler_tts_out.wav").1 ++ "_" ++ s ++ (splitext "parler_tts_out.wav").2 :=
  C5_random_result_hex_suffixed ["parler_tts_out.wav"] (fun _ => "abc123")
    "parler_tts_out.wav" 1 "parler_tts_out_abc123.wav"
    hexStream_abc123 (by decide) (by decide)

/-- C6: with `parler_tts_out.wav` and `parler_tts_out_1.wav` present and
`parler_tts_out_2.wav` absent, the increment strategy on the default name can
only return `parler_tts_out_2.wav`, and does return it (at fuel 3). -/
theorem C6_increment_scenario (suffixes : Nat → String) (fuel : Nat) (r : String) :
    (apply_filename_strategy ["parler_tts_out.wav", "parler_tts_out_1.wav"] suffixes
        "parler_tts_out.wav" "increment" fuel = some r → r = "parler_tts_out_2.wav") ∧
    apply_filename_strategy ["parler_tts_out.wav", "parler_tts_out_1.wav"] suffixes
        "parler_tts_out.wav" "increment" 3 = some "parler_tts_out_2.wav" := by
  constructor
  · intro h
    rw [apply_increment_eq, if_pos (by decide)] at h
    have hfree := incLoopF_some_free _ _ _ fuel 1 _ r h
    cases fuel with
    | zero => exact absurd h (by simp [incLoopF])
    | succ f =>
      simp only [incLoopF] at h
      rw [if_pos (by decide)] at h
      obtain ⟨N, hN1, hN2, hN3⟩ := incLoopF_min _ _ _ f 0 r h
      have hNne1 : N ≠ 1 := by
        intro he
        rw [he] at hN2
        rw [hN2] at hfree
        exact absurd hfree (by decide)
      have hNlt3 : N < 3 := by
        by_contra hge
        push_neg at hge
        have h2 := hN3 2 (by omega) (by omega)
        exact absurd h2 (by decide)
      have hN2eq : N = 2 := by omega
      rw [hN2eq] at hN2
      rw [hN2]
      decide
  · rfl

/-- Witness for C6 at fuel 3 and the resolved result. -/
theorem C6_witness :
    (apply_filename_strategy ["parler_tts_out.wav", "parler_tts_out_1.wav"] (fun _ => "aaaaaa")
        "parler_tts_out.wav" "increment" 3 = some "parler_tts_out_2.wav" →
      "parler_tts_out_2.wav" = "parler_tts_out_2.wav") ∧
    apply_filename_strategy ["parler_tts_out.wav", "parler_tts_out_1.wav"] (fun _ => "aaaaaa")
        "parler_tts_out.wav" "increment" 3 = some "parler_tts_out_2.wav" :=
  C6_increment_scenario (fun _ => "aaaaaa") 3 "parler_tts_out_2.wav"

/-- The random loop never exits when every drawn suffix collides with an
existing file. -/
theorem randLoopF_const_none :
    ∀ fuel i, randLoopF ["x.wav", "x_aaaaaa.wav"] "x" ".wav" (fun _ => "aaaaaa") fuel i = none := by
  intro fuel
  induction fuel with
  | zero => intro i; rfl
  | succ f ih =>
    intro i
    simp only [randLoopF]
    rw [if_pos (by decide)]
    exact ih (i + 1)

/-- C7 counterexample: with `x.wav` and `x_aaaaaa.wav` present and an entropy
stream that keeps drawing the colliding suffix `aaaaaa`, the `random` strategy
never returns a path at any fuel — the engine is not total. -/
theorem C7_counterexample :
    ¬ ∃ fuel r, apply_filename_strategy ["x.wav", "x_aaaaaa.wav"] (fun _ => "aaaaaa")
        "x.wav" "random" fuel = some r := by
  rintro ⟨fuel, r, h⟩
  rw [apply_random_eq, if_pos (by decide)] at h
  rw [show (splitext "x.wav").1 = "x" from by decide,
    show (splitext "x.wav").2 = ".wav" from by decide] at h
  rw [randLoopF_const_none fuel 0] at h
  simp at h

/-- C7 (amended): the engine always terminates returning some path for
strategies `default`, `increment` and any unrecognized strategy; for `random`
it terminates provided some drawn suffix yields a non-existing candidate. -/
theorem C7_amended_totality (fs : FileSystem) (suffixes : Nat → String)
    (filename strategy : String)
    (hr : (strategy == "random" && (filename == default_name || pathExists fs filename)) = true →
      ∃ i, pathExists fs
        (suffixed (splitext filename).1 (splitext filename).2 (suffixes i)) = false) :
    ∃ fuel r, apply_filename_strategy fs suffixes filename strategy fuel = some r := by
  by_cases h1 : (strategy == "default") = true
  · refine ⟨0, filename, ?_⟩
    simp only [apply_filename_strategy]
    rw [if_pos h1]
  · by_cases h2 : (strategy == "increment" &&
        (filename == default_name || pathExists fs filename)) = true
    · obtain ⟨k, hk⟩ := increment_terminates fs (splitext filename).1 (splitext filename).2
      have hk' : pathExists fs
          (candName (splitext filename).1 (splitext filename).2 (1 + k)) = false := by
        rw [show 1 + k = k + 1 from by omega]
        exact hk
      obtain ⟨r, hr2⟩ := incLoopF_reaches fs _ _ k 1 filename hk'
      refine ⟨k + 2, r, ?_⟩
      simp only [apply_filename_strategy]
      rw [if_neg h1, if_pos h2]
      exact hr2
    · by_cases h3 : (strategy == "random" &&
          (filename == default_name || pathExists fs filename)) = true
      · obtain ⟨i, hi⟩ := hr h3
        have hi' : pathExists fs (suffixed (splitext filename).1 (splitext filename).2
            (suffixes (0 + i))) = false := by
          rw [show 0 + i = i from by omega]
          exact hi
        obtain ⟨r, hr3⟩ := randLoopF_reaches fs _ _ suffixes i 0 hi'
        refine ⟨i + 1, r, ?_⟩
        simp only [apply_filename_strategy]
        rw [if_neg h1, if_neg h2, if_pos h3]
        exact hr3
      · refine ⟨0, filename, ?_⟩
        simp only [apply_filename_strategy]
        rw [if_neg h1, if_neg h2, if_neg h3]

/-- Witness for the amended C7: the increment strategy on the default name
over an empty filesystem terminates. -/
theorem C7_witness :
    ∃ fuel r, apply_filename_strategy [] (fun _ => "abc123")
      "parler_tts_out.wav" "increment" fuel = some r :=
  C7_amended_totality [] (fun _ => "abc123") "parler_tts_out.wav" "increment"
    (fun hcontra => absurd hcontra (by decide))

/-- C10: when the default name is requested and absent from the filesystem,
`increment` returns the default name unchanged (the loop body never runs),
while `random` unconditionally suffixes: whenever it returns, the result is
`parler_tts_out_<drawn 6-hex suffix>.wav`. -/
theorem C10_default_absent_asymmetry (fs : FileSystem) (suffixes : Nat → String) (fuel : Nat)
    (hne : pathExists fs default_name = false)
    (hhex : HexStream suffixes) :
    apply_filename_strategy fs suffixes default_name "increment" (fuel + 1) =
      some default_name ∧
    ∀ r, apply_filename_strategy fs suffixes default_name "random" fuel = some r →
      ∃ s, s.length = 6 ∧ (∀ c ∈ s.data, isLowerHex c = true) ∧
        r = "parler_tts_out" ++ "_" ++ s ++ ".wav" := by
  constructor
  · rw [apply_increment_eq, if_pos (by simp)]
    simp only [incLoopF]
    rw [if_neg (by simp [hne])]
  · intro r h
    rw [apply_random_eq, if_pos (by simp)] at h
    obtain ⟨hfree, j, hj⟩ := randLoopF_some_spec fs _ _ suffixes fuel 0 r h
    obtain ⟨hlen, hchars⟩ := hhex j
    exact ⟨suffixes j, hlen, hchars, hj⟩

/-- Witness for C10 on the empty filesystem with a constant `abc123` stream. -/
theorem C10_witness :
    (apply_filename_strategy [] (fun _ => "abc123") default_name "increment" (0 + 1) =
      some default_name) ∧
    ∀ r, apply_filename_strategy [] (fun _ => "abc123") default_name "random" 0 = some r →
      ∃ s, s.length = 6 ∧ (∀ c ∈ s.data, isLowerHex c = true) ∧
        r = "parler_tts_out" ++ "_" ++ s ++ ".wav" :=
  C10_default_absent_asymmetry [] (fun _ => "abc123") 0 (by decide) hexStream_abc123

/-- C9: the batch driver's command list is the male list then the female list
in source order, one invocation per speaker (20 in total); every invocation
fixes the filename strategy flag pair to `-f default` and uses a distinct
per-speaker output path; execution is fail-fast — the invocations performed
are the longest successful prefix plus the first failing one, so a failure
aborts all remaining invocations. -/
theorem C9_batch_fail_fast (succeeds : List String → Bool) :
    runBatch succeeds batchCmds =
      batchCmds.take ((batchCmds.takeWhile succeeds).length + 1) ∧
    (∀ c ∈ batchCmds, c.getD 10 "" = "-f" ∧ c.getD 11 "" = "default") ∧
    (batchCmds.map (fun c => c.getD 9 "")).Nodup ∧
    batchCmds = male_speakers.map maleCmd ++ female_speakers.map femaleCmd ∧
    batchCmds.length = 20 := by
  refine ⟨runBatch_take succeeds batchCmds, ?_, ?_, rfl, rfl⟩
  · intro c hc
    have hc' : c ∈ male_speakers.map maleCmd ++ female_speakers.map femaleCmd := hc
    rcases List.mem_append.1 hc' with hm | hf
    · obtain ⟨s, _, rfl⟩ := List.mem_map.1 hm
      exact ⟨rfl, rfl⟩
    · obtain ⟨s, _, rfl⟩ := List.mem_map.1 hf
      exact ⟨rfl, rfl⟩
  · decide

/-- Witness for C9: with an all-succeeding runner the whole batch is
performed in order. -/
theorem C9_witness :
    runBatch (fun _ => true) batchCmds =
      batchCmds.take ((batchCmds.takeWhile (fun _ => true)).length + 1) :=
  (C9_batch_fail_fast (fun _ => true)).1

end ParlerTTS
